import Mathlib

/-!
Verification of `saleor/graphql/shipping/mutations/channels.py`
(`ShippingMethodChannelListingUpdate`): a shallow embedding of the
shipping-method channel-listing mutation and proofs of its specified
properties.

Shipping methods and channels are identified by natural numbers (standing
for their database ids / resolved global ids).  Decimal amounts are
modelled as integers; only presence/absence and equality of the stored
values matter to the properties below, so the carrier of `Decimal` is
irrelevant.  The persisted table of `ShippingMethodChannelListing` rows is
modelled as a `List Listing`; the ORM primitives used by the source
(`update_or_create`, `filter(...).delete()`, `transaction.atomic`) are
embedded as pure functions on that list, following their documented
semantics.
-/

set_option autoImplicit false
set_option linter.unusedVariables false

namespace SaleorShipping

/-- A persisted `ShippingMethodChannelListing` row: the join entity between
a shipping method and a channel, carrying the channel-scoped price and the
optional min/max order-value bounds (all nullable decimals). -/
structure Listing where
  shipping_method : Nat
  channel : Nat
  price : Option Int
  min_value : Option Int
  max_value : Option Int
  deriving DecidableEq, Repr

/-- One entry of `add_channels` after `clean_channels` has resolved the
channel id to a channel record (`ShippingMethodChannelListingAddInput`
with the channel resolved).  Channels are identified by their id, so the
resolved channel is again a `Nat`.  An omitted or explicitly null decimal
field is `none` (the source reads them with `dict.get`, which collapses
both to `None`). -/
structure CleanedAddChannel where
  channel : Nat
  price : Option Int
  min_value : Option Int
  max_value : Option Int
  deriving DecidableEq, Repr

/-- The raw `ShippingMethodChannelListingInput`: channels to add, with
their channel ids still unresolved, and channel ids to remove. -/
structure AddChannelInput where
  channel_id : Nat
  price : Option Int
  min_value : Option Int
  max_value : Option Int
  deriving DecidableEq, Repr

/-- `ShippingMethodChannelListingInput`: the mutation input object. -/
structure ListingInput where
  add_channels : List AddChannelInput
  remove_channels : List Nat
  deriving DecidableEq, Repr

/-- `clean_channels` output: the cleaned input consumed by `save`. -/
structure CleanedInput where
  add_channels : List CleanedAddChannel
  remove_channels : List Nat
  deriving DecidableEq, Repr

/-- `ShippingMethodChannelListing.objects.update_or_create(
shipping_method=sm, channel=ch, defaults={price, min_value, max_value})`:
if a row keyed by `(sm, ch)` exists it is updated in place with the
defaults, otherwise a new row is appended. -/
def updateOrCreateListing (sm ch : Nat) (p mn mx : Option Int) :
    List Listing → List Listing
  | [] => [⟨sm, ch, p, mn, mx⟩]
  | l :: ls =>
    if l.shipping_method = sm ∧ l.channel = ch then
      ⟨sm, ch, p, mn, mx⟩ :: ls
    else
      l :: updateOrCreateListing sm ch p mn mx ls

/-- `ShippingMethodChannelListingUpdate.add_channels`: for each entry of
`add_channels`, upsert the listing row keyed by
`(shipping_method, channel)` with the supplied price/min_value/max_value
(missing fields read as `None` by `dict.get`). -/
def add_channels (sm : Nat) : List CleanedAddChannel → List Listing → List Listing
  | [], db => db
  | a :: rest, db =>
    add_channels sm rest
      (updateOrCreateListing sm a.channel a.price a.min_value a.max_value db)

/-- `ShippingMethodChannelListingUpdate.remove_channels`:
`ShippingMethodChannelListing.objects.filter(shipping_method=sm,
channel_id__in=remove_channels).delete()` — delete every listing row of
the given shipping method whose channel id is in the removal list. -/
def remove_channels (sm : Nat) (removes : List Nat) (db : List Listing) :
    List Listing :=
  db.filter (fun l => ¬(l.shipping_method = sm ∧ l.channel ∈ removes))

/-- `ShippingMethodChannelListingUpdate.save` (inside
`transaction.atomic()`): run the add step, then the remove step. -/
def save (sm : Nat) (cleaned_input : CleanedInput) (db : List Listing) :
    List Listing :=
  remove_channels sm cleaned_input.remove_channels
    (add_channels sm cleaned_input.add_channels db)

/-- `ShippingErrorCode` members used by this mutation. -/
inductive ShippingErrorCode where
  | duplicated_input_item
  | graphql_error
  deriving DecidableEq, Repr

/-- One field-level entry of the accumulated `ValidationError` dict. -/
structure ErrorEntry where
  field : String
  code : ShippingErrorCode
  deriving DecidableEq, Repr

/-- The ways `perform_mutation` fails: `get_node_or_error` raising on an
unresolvable shipping-method id (a node-resolution `ValidationError` on
field `id`), or the accumulated per-field validation errors raised after
`clean_channels`. -/
inductive MutationError where
  | notFound (field : String)
  | validation (errors : List ErrorEntry)
  deriving DecidableEq, Repr

/-- The channel ids referenced by the input, across both lists. -/
def channelIds (input : ListingInput) : List Nat :=
  input.add_channels.map (fun a => a.channel_id) ++ input.remove_channels

/-- Modelled from the spec: the duplicate detection of
`BaseChannelListing.clean_channels` (the shared channel-resolution helper,
whose source is not part of this unit).  Per the spec, the combined set of
channel identifiers referenced across `add_channels` and `remove_channels`
must contain no duplicates; on violation a `DUPLICATED_INPUT_ITEM` error
referencing the offending field is accumulated. -/
def clean_channels_errors (input : ListingInput) : List ErrorEntry :=
  let addIds := input.add_channels.map (fun a => a.channel_id)
  let remIds := input.remove_channels
  (if addIds.Nodup ∧ ∀ x ∈ addIds, x ∉ remIds then []
   else [⟨"addChannels", ShippingErrorCode.duplicated_input_item⟩]) ++
  (if remIds.Nodup then []
   else [⟨"removeChannels", ShippingErrorCode.duplicated_input_item⟩])

/-- Modelled from the spec: `BaseChannelListing.clean_channels` — detect
duplicated channel ids (accumulating `DUPLICATED_INPUT_ITEM` errors) and
resolve each `channel_id` to its channel record (channels being identified
by their id here, resolution is the identity on ids). -/
def clean_channels (input : ListingInput) :
    Except (List ErrorEntry) CleanedInput :=
  match clean_channels_errors input with
  | [] =>
    Except.ok
      ⟨input.add_channels.map
          (fun a => ⟨a.channel_id, a.price, a.min_value, a.max_value⟩),
        input.remove_channels⟩
  | errs => Except.error errs

/-- `ShippingMethodChannelListingUpdate.perform_mutation`: resolve the
shipping-method id (`get_node_or_error`, modelled by the `resolve`
environment; failure raises a node-resolution error on field `id`), then
`clean_channels`, raising the accumulated errors if any, then `save`.
Returns the updated listing table on success. -/
def perform_mutation (resolve : Nat → Option Nat) (id : Nat)
    (input : ListingInput) (db : List Listing) :
    Except MutationError (List Listing) :=
  match resolve id with
  | none => Except.error (MutationError.notFound "id")
  | some shipping_method =>
    match clean_channels input with
    | Except.error errs => Except.error (MutationError.validation errs)
    | Except.ok cleaned_input =>
      Except.ok (save shipping_method cleaned_input db)

/-- The listing table after a call of `perform_mutation`: unchanged when
the mutation raises, the saved table when it succeeds. -/
def runMutation (resolve : Nat → Option Nat) (id : Nat)
    (input : ListingInput) (db : List Listing) : List Listing :=
  match perform_mutation resolve id input db with
  | Except.ok db' => db'
  | Except.error _ => db

/-! ### Fallible persistence and the atomic transaction

To state the atomicity of `save` (the `transaction.atomic()` decorator) we
let every persistence primitive fail: `addFails` lists, positionally, which
`update_or_create` calls raise a persistence error (constraint violation,
transient storage failure), and `removeFails` whether the `delete` does.
`transaction.atomic` rolls the database back to its entry state when the
body raises. -/

/-- `add_channels` with fallible `update_or_create` calls: the `i`-th call
raises when the `i`-th element of `addFails` is `true` (missing elements
read as `false`): the already-performed writes are present in the
transaction when the error propagates. -/
def add_channelsF (sm : Nat) :
    List CleanedAddChannel → List Bool → List Listing →
    Except Unit (List Listing)
  | [], _, db => Except.ok db
  | a :: rest, fails, db =>
    if fails.headD false then Except.error ()
    else
      add_channelsF sm rest fails.tail
        (updateOrCreateListing sm a.channel a.price a.min_value a.max_value db)

/-- The body of `save` with fallible persistence: the add step, then the
remove step (whose `delete` raises when `removeFails` is `true`). -/
def saveBody (sm : Nat) (cleaned_input : CleanedInput)
    (addFails : List Bool) (removeFails : Bool) (db : List Listing) :
    Except Unit (List Listing) :=
  match add_channelsF sm cleaned_input.add_channels addFails db with
  | Except.error e => Except.error e
  | Except.ok db1 =>
    if removeFails then Except.error ()
    else Except.ok (remove_channels sm cleaned_input.remove_channels db1)

/-- `transaction.atomic()`: run the body against the current state; if it
raises, roll back to the entry state. -/
def atomic (body : List Listing → Except Unit (List Listing))
    (db : List Listing) : List Listing :=
  match body db with
  | Except.ok db' => db'
  | Except.error _ => db

/-- `save` as executed: its body under `transaction.atomic()`. -/
def saveAtomic (sm : Nat) (cleaned_input : CleanedInput)
    (addFails : List Bool) (removeFails : Bool) (db : List Listing) :
    List Listing :=
  atomic (saveBody sm cleaned_input addFails removeFails) db

/-! ### The whole persisted state

Listing rows live among the rest of the database; `Database α` pairs the
`ShippingMethodChannelListing` table with every other persisted entity
(of arbitrary type `α`).  The mutation reads and writes only the listing
table. -/

/-- The persisted state: the listing table plus all other entities. -/
structure Database (α : Type) where
  listings : List Listing
  other : α

/-- `save` acting on the whole persisted state: only the listing table is
touched. -/
def saveDB {α : Type} (sm : Nat) (cleaned_input : CleanedInput)
    (db : Database α) : Database α :=
  { db with listings := save sm cleaned_input db.listings }

/-- The uniqueness invariant on the listing table: at most one row per
`(shipping_method, channel)` pair. -/
def KeysNodup (db : List Listing) : Prop :=
  (db.map (fun l => (l.shipping_method, l.channel))).Nodup

instance (db : List Listing) : Decidable (KeysNodup db) := by
  unfold KeysNodup; infer_instance

/-! ## Lemmas about the upsert primitive -/

/-- When no row is keyed by `(sm, ch)`, `update_or_create` appends a fresh
row at the end of the table. -/
theorem updateOrCreate_of_not_listed (sm ch : Nat) (p mn mx : Option Int)
    (db : List Listing)
    (h : ∀ l ∈ db, ¬(l.shipping_method = sm ∧ l.channel = ch)) :
    updateOrCreateListing sm ch p mn mx db = db ++ [⟨sm, ch, p, mn, mx⟩] := by
  induction db with
  | nil => rfl
  | cons l ls ih =>
    have hl := h l (List.mem_cons_self l ls)
    rw [updateOrCreateListing, if_neg hl,
      ih (fun x hx => h x (List.mem_cons_of_mem l hx))]
    rfl

/-- When some row is keyed by `(sm, ch)`, `update_or_create` replaces the
first such row in place: the table splits as `pre ++ old :: post` with no
match in `pre`, and the result is `pre ++ new :: post`. -/
theorem updateOrCreate_of_listed (sm ch : Nat) (p mn mx : Option Int)
    (db : List Listing)
    (h : ∃ l ∈ db, l.shipping_method = sm ∧ l.channel = ch) :
    ∃ pre old post,
      db = pre ++ old :: post ∧
      (∀ x ∈ pre, ¬(x.shipping_method = sm ∧ x.channel = ch)) ∧
      old.shipping_method = sm ∧ old.channel = ch ∧
      updateOrCreateListing sm ch p mn mx db =
        pre ++ (⟨sm, ch, p, mn, mx⟩ : Listing) :: post := by
  induction db with
  | nil => simp at h
  | cons l ls ih =>
    by_cases hl : l.shipping_method = sm ∧ l.channel = ch
    · exact ⟨[], l, ls, rfl, by simp, hl.1, hl.2,
        by rw [updateOrCreateListing, if_pos hl]; rfl⟩
    · obtain ⟨m, hm, hmk⟩ := h
      rcases List.mem_cons.mp hm with hml | hmls
      · exact absurd (hml ▸ hmk) hl
      · obtain ⟨pre, old, post, hsplit, hpre, h1, h2, hres⟩ :=
          ih ⟨m, hmls, hmk⟩
        refine ⟨l :: pre, old, post, by rw [hsplit]; rfl, ?_, h1, h2, ?_⟩
        · intro x hx
          rcases List.mem_cons.mp hx with hxl | hxp
          · exact hxl ▸ hl
          · exact hpre x hxp
        · rw [updateOrCreateListing, if_neg hl, hres]
          rfl

/-- Every row of the upserted table is either a row of the original table
or the freshly written row. -/
theorem mem_updateOrCreate (sm ch : Nat) (p mn mx : Option Int)
    (db : List Listing) (l : Listing)
    (h : l ∈ updateOrCreateListing sm ch p mn mx db) :
    l ∈ db ∨ l = ⟨sm, ch, p, mn, mx⟩ := by
  induction db with
  | nil =>
    simp only [updateOrCreateListing, List.mem_singleton] at h
    exact Or.inr h
  | cons x xs ih =>
    rw [updateOrCreateListing] at h
    split at h
    · rcases List.mem_cons.mp h with h1 | h1
      · exact Or.inr h1
      · exact Or.inl (List.mem_cons_of_mem x h1)
    · rcases List.mem_cons.mp h with h1 | h1
      · exact Or.inl (h1 ▸ List.mem_cons_self x xs)
      · rcases ih h1 with h2 | h2
        · exact Or.inl (List.mem_cons_of_mem x h2)
        · exact Or.inr h2

/-! ## Claims C3 and C4: the add step's per-entry behaviour -/

/-- C3: For every `add_channels` entry whose channel already has a listing
row for the given shipping method, the add step overwrites that row's
price, min_value and max_value with the supplied values (an omitted or
null field being `none`, the three fields are fully replaced) and creates
no second row for the `(shipping_method, channel)` pair: the table keeps
its length and only the matched row changes. -/
theorem add_step_overwrites_existing_row (sm ch : Nat) (p mn mx : Option Int)
    (db : List Listing) (hinv : KeysNodup db)
    (h : ∃ l ∈ db, l.shipping_method = sm ∧ l.channel = ch) :
    (updateOrCreateListing sm ch p mn mx db).length = db.length ∧
    ∃ pre old post,
      db = pre ++ old :: post ∧
      old.shipping_method = sm ∧ old.channel = ch ∧
      updateOrCreateListing sm ch p mn mx db =
        pre ++ (⟨sm, ch, p, mn, mx⟩ : Listing) :: post := by
  obtain ⟨pre, old, post, hsplit, _, h1, h2, hres⟩ :=
    updateOrCreate_of_listed sm ch p mn mx db h
  refine ⟨?_, pre, old, post, hsplit, h1, h2, hres⟩
  rw [hres, hsplit]
  simp

/-- Witness for C3 on a concrete table: shipping method 1 already lists
channel 2; the add step replaces that row in place. -/
theorem add_step_overwrites_existing_row_witness :
    KeysNodup [⟨1, 2, some 5, none, some 7⟩, ⟨3, 2, some 1, none, none⟩] ∧
    (∃ l ∈ [(⟨1, 2, some 5, none, some 7⟩ : Listing),
        ⟨3, 2, some 1, none, none⟩],
      l.shipping_method = 1 ∧ l.channel = 2) ∧
    ((updateOrCreateListing 1 2 (some 9) none none
        [⟨1, 2, some 5, none, some 7⟩, ⟨3, 2, some 1, none, none⟩]).length =
      ([(⟨1, 2, some 5, none, some 7⟩ : Listing),
        ⟨3, 2, some 1, none, none⟩] : List Listing).length ∧
    ∃ pre old post,
      [(⟨1, 2, some 5, none, some 7⟩ : Listing), ⟨3, 2, some 1, none, none⟩] =
        pre ++ old :: post ∧
      old.shipping_method = 1 ∧ old.channel = 2 ∧
      updateOrCreateListing 1 2 (some 9) none none
          [⟨1, 2, some 5, none, some 7⟩, ⟨3, 2, some 1, none, none⟩] =
        pre ++ (⟨1, 2, some 9, none, none⟩ : Listing) :: post) :=
  ⟨by decide, by decide,
    add_step_overwrites_existing_row 1 2 (some 9) none none
      [⟨1, 2, some 5, none, some 7⟩, ⟨3, 2, some 1, none, none⟩]
      (by decide) (by decide)⟩

/-- C4: For every `add_channels` entry whose channel has no existing
listing row for the given shipping method, the add step creates exactly
one new listing row keyed by `(shipping_method, channel)` carrying the
supplied price, min_value and max_value: the table becomes the old table
with the one new row appended. -/
theorem add_step_creates_new_row (sm ch : Nat) (p mn mx : Option Int)
    (db : List Listing)
    (h : ∀ l ∈ db, ¬(l.shipping_method = sm ∧ l.channel = ch)) :
    updateOrCreateListing sm ch p mn mx db = db ++ [⟨sm, ch, p, mn, mx⟩] :=
  updateOrCreate_of_not_listed sm ch p mn mx db h

/-- Witness for C4 on a concrete table: shipping method 1 does not list
channel 4; the add step appends exactly one row for it. -/
theorem add_step_creates_new_row_witness :
    (∀ l ∈ [(⟨1, 2, some 5, none, some 7⟩ : Listing)],
      ¬(l.shipping_method = 1 ∧ l.channel = 4)) ∧
    updateOrCreateListing 1 4 (some 10) (some 0) none
        [⟨1, 2, some 5, none, some 7⟩] =
      [⟨1, 2, some 5, none, some 7⟩] ++ [⟨1, 4, some 10, some 0, none⟩] :=
  ⟨by decide,
    add_step_creates_new_row 1 4 (some 10) (some 0) none
      [⟨1, 2, some 5, none, some 7⟩] (by decide)⟩

/-! ## Claims C5 and C7: the remove step -/

/-- C5: the remove step deletes exactly the listing rows of the given
shipping method whose channel is in `remove_channels` (a row survives iff
it was present and is not such a row), and a channel of the removal set
with no existing listing row is a no-op for that channel: dropping it from
the removal set gives the same result (and the operation is total — no
error is raised). -/
theorem remove_step_deletes_exactly (sm : Nat) (removes : List Nat)
    (db : List Listing) :
    (∀ l, l ∈ remove_channels sm removes db ↔
      l ∈ db ∧ ¬(l.shipping_method = sm ∧ l.channel ∈ removes)) ∧
    (∀ ch, (∀ l ∈ db, ¬(l.shipping_method = sm ∧ l.channel = ch)) →
      remove_channels sm removes db =
        remove_channels sm (removes.filter (fun x => x ≠ ch)) db) := by
  constructor
  · intro l
    simp only [remove_channels, List.mem_filter, decide_not,
      Bool.not_eq_true', decide_eq_false_iff_not]
  · intro ch h
    unfold remove_channels
    apply List.filter_congr
    intro a ha
    simp only [decide_eq_decide]
    by_cases hch : a.channel = ch
    · have hsm : ¬a.shipping_method = sm := fun hs => h a ha ⟨hs, hch⟩
      simp [hsm]
    · have hmem : a.channel ∈ removes.filter (fun x => x ≠ ch) ↔
          a.channel ∈ removes := by
        simp [List.mem_filter, hch]
      rw [hmem]

/-- Witness for C5 on a concrete table: removing channels 2 and 9 from
shipping method 1 deletes exactly the row for channel 2 (channel 9,
unlisted, is a no-op). -/
theorem remove_step_deletes_exactly_witness :
    (∀ l, l ∈ remove_channels 1 [2, 9]
          [⟨1, 2, some 5, none, none⟩, ⟨1, 3, some 6, none, none⟩] ↔
      l ∈ [(⟨1, 2, some 5, none, none⟩ : Listing), ⟨1, 3, some 6, none, none⟩] ∧
      ¬(l.shipping_method = 1 ∧ l.channel ∈ [2, 9])) ∧
    (∀ ch, (∀ l ∈ [(⟨1, 2, some 5, none, none⟩ : Listing),
          ⟨1, 3, some 6, none, none⟩],
        ¬(l.shipping_method = 1 ∧ l.channel = ch)) →
      remove_channels 1 [2, 9]
          [⟨1, 2, some 5, none, none⟩, ⟨1, 3, some 6, none, none⟩] =
        remove_channels 1 ([2, 9].filter (fun x => x ≠ ch))
          [⟨1, 2, some 5, none, none⟩, ⟨1, 3, some 6, none, none⟩]) :=
  remove_step_deletes_exactly 1 [2, 9]
    [⟨1, 2, some 5, none, none⟩, ⟨1, 3, some 6, none, none⟩]

/-- C7: removal is idempotent — removing a channel of a shipping method
twice in sequence yields the same end state as removing it once (the
second invocation is a no-op), and after each invocation no listing row
for the pair remains. -/
theorem remove_step_idempotent (sm ch : Nat) (db : List Listing) :
    remove_channels sm [ch] (remove_channels sm [ch] db) =
      remove_channels sm [ch] db ∧
    ∀ l ∈ remove_channels sm [ch] db,
      ¬(l.shipping_method = sm ∧ l.channel = ch) := by
  constructor
  · apply List.filter_eq_self.mpr
    intro a ha
    exact (List.mem_filter.mp ha).2
  · intro l hl
    have := (List.mem_filter.mp hl).2
    simp only [List.mem_singleton, decide_not] at this
    intro hcon
    simp [hcon.1, hcon.2] at this

/-- Witness for C7 on a concrete table: removing channel 2 of shipping
method 1 twice leaves the table of the single removal, with no row for
the pair after either invocation. -/
theorem remove_step_idempotent_witness :
    remove_channels 1 [2] (remove_channels 1 [2]
        [⟨1, 2, some 5, none, none⟩, ⟨1, 3, some 6, none, none⟩]) =
      remove_channels 1 [2]
        [⟨1, 2, some 5, none, none⟩, ⟨1, 3, some 6, none, none⟩] ∧
    ∀ l ∈ remove_channels 1 [2]
        [⟨1, 2, some 5, none, none⟩, ⟨1, 3, some 6, none, none⟩],
      ¬(l.shipping_method = 1 ∧ l.channel = 2) :=
  remove_step_idempotent 1 2
    [⟨1, 2, some 5, none, none⟩, ⟨1, 3, some 6, none, none⟩]

/-! ## Claim C6: the uniqueness invariant is preserved -/

/-- The upsert primitive preserves key uniqueness: writing the key
`(sm, ch)` either replaces the row already carrying it or appends it
fresh. -/
theorem keysNodup_updateOrCreate (sm ch : Nat) (p mn mx : Option Int)
    (db : List Listing) (h : KeysNodup db) :
    KeysNodup (updateOrCreateListing sm ch p mn mx db) := by
  induction db with
  | nil => simp [updateOrCreateListing, KeysNodup]
  | cons l ls ih =>
    rw [KeysNodup, List.map_cons, List.nodup_cons] at h
    rw [updateOrCreateListing]
    split
    next hm =>
      rw [KeysNodup, List.map_cons, List.nodup_cons]
      refine ⟨?_, h.2⟩
      have hk : ((⟨sm, ch, p, mn, mx⟩ : Listing).shipping_method,
          (⟨sm, ch, p, mn, mx⟩ : Listing).channel) =
          (l.shipping_method, l.channel) := by
        rw [hm.1, hm.2]
      rw [hk]
      exact h.1
    next hm =>
      rw [KeysNodup, List.map_cons, List.nodup_cons]
      refine ⟨?_, ih h.2⟩
      intro hk
      obtain ⟨x, hx, hxk⟩ := List.mem_map.mp hk
      rcases mem_updateOrCreate sm ch p mn mx ls x hx with hxl | hxn
      · exact h.1 (List.mem_map.mpr ⟨x, hxl, hxk⟩)
      · apply hm
        rw [hxn] at hxk
        exact ⟨(Prod.mk.injEq _ _ _ _ ▸ hxk).1.symm ▸ rfl,
          (Prod.mk.injEq _ _ _ _ ▸ hxk).2.symm ▸ rfl⟩

/-- The add step preserves key uniqueness. -/
theorem keysNodup_add_channels (sm : Nat) (adds : List CleanedAddChannel)
    (db : List Listing) (h : KeysNodup db) :
    KeysNodup (add_channels sm adds db) := by
  induction adds generalizing db with
  | nil => exact h
  | cons a rest ih =>
    exact ih _ (keysNodup_updateOrCreate sm a.channel a.price a.min_value
      a.max_value db h)

/-- The remove step preserves key uniqueness (it only deletes rows). -/
theorem keysNodup_remove_channels (sm : Nat) (removes : List Nat)
    (db : List Listing) (h : KeysNodup db) :
    KeysNodup (remove_channels sm removes db) :=
  List.Nodup.sublist
    (List.Sublist.map _ (List.filter_sublist db)) h

/-- C6: every execution of the operation preserves the invariant that at
most one listing row exists per `(shipping_method, channel)` pair: from
any table satisfying it, the table after the add step and the remove step
still satisfies it. -/
theorem save_preserves_key_uniqueness (sm : Nat)
    (cleaned_input : CleanedInput) (db : List Listing)
    (h : KeysNodup db) : KeysNodup (save sm cleaned_input db) :=
  keysNodup_remove_channels sm cleaned_input.remove_channels _
    (keysNodup_add_channels sm cleaned_input.add_channels db h)

/-- Witness for C6 on a concrete run: an add that overwrites, an add that
creates, and a removal, starting from a table with unique keys. -/
theorem save_preserves_key_uniqueness_witness :
    KeysNodup [⟨1, 2, some 5, none, none⟩, ⟨1, 3, some 6, none, none⟩] ∧
    KeysNodup (save 1 ⟨[⟨2, some 8, none, none⟩, ⟨4, some 9, some 1, none⟩], [3]⟩
      [⟨1, 2, some 5, none, none⟩, ⟨1, 3, some 6, none, none⟩]) :=
  ⟨by decide,
    save_preserves_key_uniqueness 1
      ⟨[⟨2, some 8, none, none⟩, ⟨4, some 9, some 1, none⟩], [3]⟩
      [⟨1, 2, some 5, none, none⟩, ⟨1, 3, some 6, none, none⟩] (by decide)⟩

/-! ## Claim C10: the add and remove steps commute on disjoint channel sets -/

/-- The remove step keeps a head row that is not targeted for deletion. -/
theorem remove_channels_cons_of_kept (sm : Nat) (removes : List Nat)
    (l : Listing) (ls : List Listing)
    (h : ¬(l.shipping_method = sm ∧ l.channel ∈ removes)) :
    remove_channels sm removes (l :: ls) =
      l :: remove_channels sm removes ls := by
  unfold remove_channels
  simp only [List.filter_cons]
  rw [if_pos (decide_eq_true h)]

/-- The remove step drops a head row that is targeted for deletion. -/
theorem remove_channels_cons_of_removed (sm : Nat) (removes : List Nat)
    (l : Listing) (ls : List Listing)
    (h : l.shipping_method = sm ∧ l.channel ∈ removes) :
    remove_channels sm removes (l :: ls) = remove_channels sm removes ls := by
  unfold remove_channels
  simp only [List.filter_cons]
  rw [if_neg]
  simp only [decide_eq_true_eq]
  exact not_not_intro h

/-- A single upsert commutes with the remove step when the upserted
channel is not in the removal set. -/
theorem updateOrCreate_remove_comm (sm ch : Nat) (p mn mx : Option Int)
    (removes : List Nat) (hch : ch ∉ removes) (db : List Listing) :
    updateOrCreateListing sm ch p mn mx (remove_channels sm removes db) =
      remove_channels sm removes (updateOrCreateListing sm ch p mn mx db) := by
  induction db with
  | nil =>
    simp [remove_channels, updateOrCreateListing, hch]
  | cons l ls ih =>
    by_cases hm : l.shipping_method = sm ∧ l.channel = ch
    · have hsur : ¬(l.shipping_method = sm ∧ l.channel ∈ removes) :=
        fun hc => hch (hm.2 ▸ hc.2)
      have hnew : ¬((⟨sm, ch, p, mn, mx⟩ : Listing).shipping_method = sm ∧
          (⟨sm, ch, p, mn, mx⟩ : Listing).channel ∈ removes) :=
        fun hc => hch hc.2
      rw [remove_channels_cons_of_kept sm removes l ls hsur,
        updateOrCreateListing, if_pos hm, updateOrCreateListing, if_pos hm,
        remove_channels_cons_of_kept sm removes _ ls hnew]
    · by_cases hdel : l.shipping_method = sm ∧ l.channel ∈ removes
      · rw [remove_channels_cons_of_removed sm removes l ls hdel,
          updateOrCreateListing, if_neg hm,
          remove_channels_cons_of_removed sm removes l _ hdel]
        exact ih
      · rw [remove_channels_cons_of_kept sm removes l ls hdel,
          updateOrCreateListing, if_neg hm, updateOrCreateListing, if_neg hm,
          remove_channels_cons_of_kept sm removes l _ hdel, ih]

/-- The whole add step commutes with the remove step when no added channel
is in the removal set. -/
theorem add_remove_comm (sm : Nat) (adds : List CleanedAddChannel)
    (removes : List Nat) (h : ∀ a ∈ adds, a.channel ∉ removes)
    (db : List Listing) :
    add_channels sm adds (remove_channels sm removes db) =
      remove_channels sm removes (add_channels sm adds db) := by
  induction adds generalizing db with
  | nil => rfl
  | cons a rest ih =>
    rw [add_channels, add_channels,
      updateOrCreate_remove_comm sm a.channel a.price a.min_value a.max_value
        removes (h a (List.mem_cons_self a rest)) db]
    exact ih (fun x hx => h x (List.mem_cons_of_mem a hx)) _

/-- C10: for every validated input (the channel sets of `add_channels` and
`remove_channels` are disjoint), the table produced by `save` — add step
then remove step — equals the table produced by running the remove step
first and the add step second. -/
theorem save_steps_commute (sm : Nat) (cleaned_input : CleanedInput)
    (db : List Listing)
    (h : ∀ a ∈ cleaned_input.add_channels,
      a.channel ∉ cleaned_input.remove_channels) :
    save sm cleaned_input db =
      add_channels sm cleaned_input.add_channels
        (remove_channels sm cleaned_input.remove_channels db) :=
  (add_remove_comm sm cleaned_input.add_channels
    cleaned_input.remove_channels h db).symm

/-- Witness for C10 on a concrete run: adding channels 2 and 4 while
removing channel 3 commutes. -/
theorem save_steps_commute_witness :
    (∀ a ∈ ([⟨2, some 8, none, none⟩, ⟨4, some 9, some 1, none⟩] :
        List CleanedAddChannel), a.channel ∉ [3]) ∧
    save 1 ⟨[⟨2, some 8, none, none⟩, ⟨4, some 9, some 1, none⟩], [3]⟩
        [⟨1, 2, some 5, none, none⟩, ⟨1, 3, some 6, none, none⟩] =
      add_channels 1 [⟨2, some 8, none, none⟩, ⟨4, some 9, some 1, none⟩]
        (remove_channels 1 [3]
          [⟨1, 2, some 5, none, none⟩, ⟨1, 3, some 6, none, none⟩]) :=
  ⟨by decide,
    save_steps_commute 1
      ⟨[⟨2, some 8, none, none⟩, ⟨4, some 9, some 1, none⟩], [3]⟩
      [⟨1, 2, some 5, none, none⟩, ⟨1, 3, some 6, none, none⟩] (by decide)⟩

/-! ## Claim C2: atomicity of `save` -/

/-- A successful run of the fallible add step computes exactly the add
step. -/
theorem add_channelsF_ok (sm : Nat) (adds : List CleanedAddChannel)
    (fails : List Bool) (db db' : List Listing)
    (h : add_channelsF sm adds fails db = Except.ok db') :
    db' = add_channels sm adds db := by
  induction adds generalizing fails db with
  | nil =>
    rw [add_channelsF] at h
    rw [add_channels]
    exact (Except.ok.injEq _ _ ▸ h).symm
  | cons a rest ih =>
    rw [add_channelsF] at h
    rw [add_channels]
    split at h
    · exact absurd h (by simp)
    · exact ih _ _ h

/-- C2: the add and remove steps of one call execute as a single
all-or-nothing transaction.  If any persistence operation inside the body
of `save` fails, the table after the call is exactly the table before it
(full rollback); if none fails, the table is exactly `save`'s result. -/
theorem save_all_or_nothing (sm : Nat) (cleaned_input : CleanedInput)
    (addFails : List Bool) (removeFails : Bool) (db : List Listing) :
    (saveBody sm cleaned_input addFails removeFails db = Except.error () →
      saveAtomic sm cleaned_input addFails removeFails db = db) ∧
    (∀ db', saveBody sm cleaned_input addFails removeFails db =
        Except.ok db' →
      saveAtomic sm cleaned_input addFails removeFails db =
        save sm cleaned_input db) := by
  constructor
  · intro h
    unfold saveAtomic atomic
    rw [h]
  · intro db' h
    unfold saveAtomic atomic
    rw [h]
    unfold saveBody at h
    split at h
    · exact absurd h (by simp)
    next db1 hadd =>
      split at h
      · exact absurd h (by simp)
      · have hdb : remove_channels sm cleaned_input.remove_channels db1 = db' :=
          Except.ok.inj h
        show db' = save sm cleaned_input db
        rw [← hdb,
          add_channelsF_ok sm cleaned_input.add_channels addFails db db1 hadd]
        rfl

/-- Witness for C2 on a concrete run: with two adds where the second
`update_or_create` raises, the transaction rolls the table back to its
entry state; with no failure, the table is `save`'s result. -/
theorem save_all_or_nothing_witness :
    saveBody 1 ⟨[⟨2, some 8, none, none⟩, ⟨4, some 9, none, none⟩], [3]⟩
        [false, true] false [⟨1, 3, some 6, none, none⟩] =
      Except.error () ∧
    saveAtomic 1 ⟨[⟨2, some 8, none, none⟩, ⟨4, some 9, none, none⟩], [3]⟩
        [false, true] false [⟨1, 3, some 6, none, none⟩] =
      [⟨1, 3, some 6, none, none⟩] :=
  ⟨by rfl,
    (save_all_or_nothing 1
        ⟨[⟨2, some 8, none, none⟩, ⟨4, some 9, none, none⟩], [3]⟩
        [false, true] false [⟨1, 3, some 6, none, none⟩]).1 (by rfl)⟩

/-! ## Claim C8: the operation frames everything but its own listings -/

/-- The upsert of a row of shipping method `sm` leaves the rows of every
other shipping method unchanged. -/
theorem updateOrCreate_other_methods (sm ch : Nat) (p mn mx : Option Int)
    (db : List Listing) :
    (updateOrCreateListing sm ch p mn mx db).filter
        (fun l => ¬l.shipping_method = sm) =
      db.filter (fun l => ¬l.shipping_method = sm) := by
  induction db with
  | nil => simp [updateOrCreateListing]
  | cons l ls ih =>
    rw [updateOrCreateListing]
    split
    next hm => simp [List.filter_cons, hm.1]
    next hm => rw [List.filter_cons, List.filter_cons, ih]

/-- The add step leaves the rows of every other shipping method
unchanged. -/
theorem add_channels_other_methods (sm : Nat)
    (adds : List CleanedAddChannel) (db : List Listing) :
    (add_channels sm adds db).filter (fun l => ¬l.shipping_method = sm) =
      db.filter (fun l => ¬l.shipping_method = sm) := by
  induction adds generalizing db with
  | nil => rfl
  | cons a rest ih =>
    rw [add_channels, ih, updateOrCreate_other_methods]

/-- The remove step leaves the rows of every other shipping method
unchanged (it only deletes rows of `sm`). -/
theorem remove_channels_other_methods (sm : Nat) (removes : List Nat)
    (db : List Listing) :
    (remove_channels sm removes db).filter
        (fun l => ¬l.shipping_method = sm) =
      db.filter (fun l => ¬l.shipping_method = sm) := by
  induction db with
  | nil => rfl
  | cons l ls ih =>
    by_cases hdel : l.shipping_method = sm ∧ l.channel ∈ removes
    · rw [remove_channels_cons_of_removed sm removes l ls hdel,
        List.filter_cons, if_neg (by simp [hdel.1]), ih]
    · rw [remove_channels_cons_of_kept sm removes l ls hdel,
        List.filter_cons, List.filter_cons, ih]

/-- C8: a successful call mutates only `ShippingMethodChannelListing`
rows of the given shipping method: the listing rows of every other
shipping method and every non-listing entity of the database are
unchanged by the operation. -/
theorem save_touches_only_own_listings {α : Type} (sm : Nat)
    (cleaned_input : CleanedInput) (db : Database α) :
    (saveDB sm cleaned_input db).other = db.other ∧
    (saveDB sm cleaned_input db).listings.filter
        (fun l => ¬l.shipping_method = sm) =
      db.listings.filter (fun l => ¬l.shipping_method = sm) := by
  refine ⟨rfl, ?_⟩
  show (save sm cleaned_input db.listings).filter _ = _
  rw [save, remove_channels_other_methods, add_channels_other_methods]

/-- Witness for C8 on a concrete database: a call for shipping method 1
leaves shipping method 3's row and the non-listing entity (here a counter
standing for the rest of the database) unchanged. -/
theorem save_touches_only_own_listings_witness :
    (saveDB 1 ⟨[⟨2, some 8, none, none⟩], [3]⟩
        (⟨[⟨1, 3, some 6, none, none⟩, ⟨3, 2, some 1, none, none⟩], 42⟩ :
          Database Nat)).other =
      (⟨[⟨1, 3, some 6, none, none⟩, ⟨3, 2, some 1, none, none⟩], 42⟩ :
        Database Nat).other ∧
    (saveDB 1 ⟨[⟨2, some 8, none, none⟩], [3]⟩
        (⟨[⟨1, 3, some 6, none, none⟩, ⟨3, 2, some 1, none, none⟩], 42⟩ :
          Database Nat)).listings.filter (fun l => ¬l.shipping_method = 1) =
      (⟨[⟨1, 3, some 6, none, none⟩, ⟨3, 2, some 1, none, none⟩], 42⟩ :
        Database Nat).listings.filter (fun l => ¬l.shipping_method = 1) :=
  save_touches_only_own_listings 1 ⟨[⟨2, some 8, none, none⟩], [3]⟩
    ⟨[⟨1, 3, some 6, none, none⟩, ⟨3, 2, some 1, none, none⟩], 42⟩

/-! ## Claims C1 and C9: validation and the order of failure -/

/-- The duplicate check accumulates no error exactly when the combined
list of referenced channel ids has no duplicates. -/
theorem clean_errors_nil_iff (input : ListingInput) :
    clean_channels_errors input = [] ↔ (channelIds input).Nodup := by
  unfold clean_channels_errors channelIds
  rw [List.nodup_append]
  by_cases hA : ((input.add_channels.map fun a => a.channel_id).Nodup ∧
      ∀ x ∈ input.add_channels.map fun a => a.channel_id,
        x ∉ input.remove_channels) <;>
    by_cases hB : input.remove_channels.Nodup <;>
      simp [hA, hB, List.Disjoint]

/-- Every accumulated duplicate error carries the
`DUPLICATED_INPUT_ITEM` code and references one of the two input
fields. -/
theorem clean_errors_entries (input : ListingInput) (e : ErrorEntry)
    (he : e ∈ clean_channels_errors input) :
    e.code = ShippingErrorCode.duplicated_input_item ∧
    (e.field = "addChannels" ∨ e.field = "removeChannels") := by
  unfold clean_channels_errors at he
  rcases List.mem_append.mp he with h | h <;> split at h <;>
    simp only [List.not_mem_nil, List.mem_singleton] at h <;>
      simp [h]

/-- When the duplicate check accumulates errors, `clean_channels` raises
them. -/
theorem clean_channels_eq_error (input : ListingInput)
    (h : clean_channels_errors input ≠ []) :
    clean_channels input = Except.error (clean_channels_errors input) := by
  unfold clean_channels
  cases hc : clean_channels_errors input with
  | nil => exact absurd hc h
  | cons a l => rfl

/-- C1: for every input in which some channel id appears in both
`add_channels` and `remove_channels`, or more than once within a list
(the combined id list has a duplicate), `perform_mutation` — once the
shipping method resolves — raises a validation error whose every entry
carries `DUPLICATED_INPUT_ITEM` and references an input field, and the
listing table is unchanged: the save step is never reached. -/
theorem duplicate_channels_rejected (resolve : Nat → Option Nat)
    (id sm : Nat) (input : ListingInput) (db : List Listing)
    (hres : resolve id = some sm)
    (hdup : ¬(channelIds input).Nodup) :
    (∃ errs, perform_mutation resolve id input db =
        Except.error (MutationError.validation errs) ∧
      errs ≠ [] ∧
      ∀ e ∈ errs, e.code = ShippingErrorCode.duplicated_input_item ∧
        (e.field = "addChannels" ∨ e.field = "removeChannels")) ∧
    runMutation resolve id input db = db := by
  have hne : clean_channels_errors input ≠ [] :=
    fun h0 => hdup ((clean_errors_nil_iff input).mp h0)
  have hpm : perform_mutation resolve id input db =
      Except.error (MutationError.validation (clean_channels_errors input)) := by
    unfold perform_mutation
    rw [hres, clean_channels_eq_error input hne]
  refine ⟨⟨clean_channels_errors input, hpm, hne,
    fun e he => clean_errors_entries input e he⟩, ?_⟩
  unfold runMutation
  rw [hpm]

/-- Witness for C1: channel 2 appears in both lists; the mutation fails
with the duplicate validation error and the table is unchanged. -/
theorem duplicate_channels_rejected_witness :
    (fun _ : Nat => some 1) 0 = some 1 ∧
    ¬(channelIds ⟨[⟨2, some 8, none, none⟩], [2]⟩).Nodup ∧
    ((∃ errs, perform_mutation (fun _ => some 1) 0
          ⟨[⟨2, some 8, none, none⟩], [2]⟩
          [⟨1, 3, some 6, none, none⟩] =
        Except.error (MutationError.validation errs) ∧
      errs ≠ [] ∧
      ∀ e ∈ errs, e.code = ShippingErrorCode.duplicated_input_item ∧
        (e.field = "addChannels" ∨ e.field = "removeChannels")) ∧
    runMutation (fun _ => some 1) 0 ⟨[⟨2, some 8, none, none⟩], [2]⟩
        [⟨1, 3, some 6, none, none⟩] =
      [⟨1, 3, some 6, none, none⟩]) :=
  ⟨rfl, by decide,
    duplicate_channels_rejected (fun _ => some 1) 0 1
      ⟨[⟨2, some 8, none, none⟩], [2]⟩ [⟨1, 3, some 6, none, none⟩]
      rfl (by decide)⟩

/-- C9: `perform_mutation` resolves the shipping-method id before the
duplicate validation runs, so when the id does not resolve the call fails
with the node-resolution error on field `id` — not with
`DUPLICATED_INPUT_ITEM` — whatever the channel lists contain, and the
listing table is unchanged. -/
theorem unresolved_id_fails_first (resolve : Nat → Option Nat) (id : Nat)
    (input : ListingInput) (db : List Listing)
    (hres : resolve id = none) :
    perform_mutation resolve id input db =
      Except.error (MutationError.notFound "id") ∧
    runMutation resolve id input db = db := by
  have hpm : perform_mutation resolve id input db =
      Except.error (MutationError.notFound "id") := by
    unfold perform_mutation
    rw [hres]
  exact ⟨hpm, by unfold runMutation; rw [hpm]⟩

/-- Witness for C9: the id does not resolve while the channel lists hold
a duplicate; the call still fails with the node-resolution error. -/
theorem unresolved_id_fails_first_witness :
    (fun _ : Nat => (none : Option Nat)) 0 = none ∧
    ¬(channelIds ⟨[⟨2, some 8, none, none⟩], [2]⟩).Nodup ∧
    (perform_mutation (fun _ => none) 0 ⟨[⟨2, some 8, none, none⟩], [2]⟩
        [⟨1, 3, some 6, none, none⟩] =
      Except.error (MutationError.notFound "id") ∧
    runMutation (fun _ => none) 0 ⟨[⟨2, some 8, none, none⟩], [2]⟩
        [⟨1, 3, some 6, none, none⟩] =
      [⟨1, 3, some 6, none, none⟩]) :=
  ⟨rfl, by decide,
    unresolved_id_fails_first (fun _ => none) 0
      ⟨[⟨2, some 8, none, none⟩], [2]⟩ [⟨1, 3, some 6, none, none⟩] rfl⟩

end SaleorShipping
